import Mathlib

/-!
Verification development for the rakes_received repository (src/app.py).

The cleaning pipeline `clean_data`, the deduplicating insert
`insert_cleaned_data` / `fallback_insert`, and the analytics blocks
(IQR outlier detection, time-bucketed resample aggregation, best-window
reduction, CSV export aggregation) are embedded as executable Lean
functions over `ℚ` and `ℤ`, and the frozen claims are settled as
theorems about those functions.
-/

namespace RR

attribute [local semireducible] Rat.add Rat.sub Rat.mul Rat.inv Rat.ofScientific

/-! ## String utilities

Models of the string operations used by the pipeline
(str.split, numeric parsing). They operate on `List Char` obtained from
`String.toList` so that every definition reduces in the kernel. -/

/-- Model of Python str.split(sep) for a one-character separator:
splits the character list at every occurrence of `c`, keeping empty
segments, and always returns at least one segment. -/
def splitOnChar (c : Char) : List Char → List (List Char)
  | [] => [[]]
  | x :: xs =>
    let r := splitOnChar c xs
    if x = c then [] :: r
    else
      match r with
      | [] => [[x]]
      | h :: t => (x :: h) :: t

/-- True when the segment is a nonempty run of decimal digits. -/
def isDigitsL (l : List Char) : Bool :=
  !l.isEmpty && l.all Char.isDigit

/-- Value of a run of decimal digits. -/
def digitsToNat (l : List Char) : ℕ :=
  l.foldl (fun n ch => n * 10 + (ch.toNat - 48)) 0

/-- Model of pd.to_numeric(errors="coerce") restricted to the nonnegative
decimal literals that can appear in the cleaned columns: a digit run,
optionally followed by a dot and a second digit run. Anything else
(for example "abc" or the empty segment) coerces to null, here `none`. -/
def decToRat (l : List Char) : Option ℚ :=
  match splitOnChar '.' l with
  | [a] => if isDigitsL a then some ((digitsToNat a : ℚ)) else none
  | [a, b] =>
    if isDigitsL a && isDigitsL b then
      some ((digitsToNat a : ℚ) + (digitsToNat b : ℚ) / ((10 : ℚ) ^ b.length))
    else none
  | _ => none

/-! ## Rounding

pandas Series.round(2) rounds half to even on the scaled value. -/

/-- Floor of a rational, written so that it reduces in the kernel; the
integer division of Lean is euclidean, hence floor division for the
positive denominator. -/
def ratFloor (x : ℚ) : ℤ :=
  x.num / (x.den : ℤ)

/-- Round a rational to the nearest integer, ties to the even integer
(the rounding used by numpy and pandas). -/
def roundHE (x : ℚ) : ℤ :=
  let f := ratFloor x
  let r := x - (f : ℚ)
  if r < 1 / 2 then f
  else if 1 / 2 < r then f + 1
  else if f % 2 = 0 then f else f + 1

/-- Model of Series.round(2): round to two decimal places, half to even. -/
def round2 (x : ℚ) : ℚ :=
  (roundHE (100 * x) : ℚ) / 100

/-! ## Field parsers of clean_data -/

/-- Gregorian leap-year test. -/
def isLeap (y : ℕ) : Bool :=
  y % 4 == 0 && (y % 100 != 0 || y % 400 == 0)

/-- Number of days in a month of a given year. -/
def daysInMonth (y m : ℕ) : ℕ :=
  if m == 2 then (if isLeap y then 29 else 28)
  else if m == 4 || m == 6 || m == 9 || m == 11 then 30
  else 31

/-- Model of pd.to_datetime(format = "DD-MM-YYYY HH:MM", errors = "coerce")
from clean_data: an unparseable or out-of-range value coerces to null
(`none`), a valid one to a timestamp. The timestamp value is an encoding
of (year, month, day, hour, minute) that is injective and strictly
monotone in the calendar order; the claims only ever use equality and
parse success of these values, never calendar arithmetic on them. -/
def parseTimestamp (s : String) : Option ℤ :=
  match splitOnChar ' ' s.toList with
  | [ds, ts] =>
    match splitOnChar '-' ds, splitOnChar ':' ts with
    | [dd, mm, yy], [hh, mi] =>
      if isDigitsL dd && isDigitsL mm && isDigitsL yy && isDigitsL hh && isDigitsL mi then
        let d := digitsToNat dd
        let m := digitsToNat mm
        let y := digitsToNat yy
        let h := digitsToNat hh
        let mn := digitsToNat mi
        if 1 ≤ m ∧ m ≤ 12 ∧ 1 ≤ d ∧ d ≤ daysInMonth y m ∧ h ≤ 23 ∧ mn ≤ 59 then
          some ((((y * 500 + m * 31 + d) * 24 + h) * 60 + mn : ℕ) : ℤ)
        else none
      else none
    | _, _ => none
  | _ => none

/-- Transit-time parsing of clean_data for one row, valid on batches
where the column split produced a second column (see clean_data_frame
for the batch-level condition): the raw string is split on ":", part 0
is the hour count and part 1 the minute count (parts beyond the second
are ignored); both parts go through pd.to_numeric, and
transit_time_hrs = (Hrs + Mins / 60).round(2). A row with fewer than
two parts gets None in the parts[1] column, and a non-numeric part
coerces to NaN, so either way the value is null (`none`). -/
def transitHours (s : String) : Option ℚ :=
  match splitOnChar ':' s.toList with
  | p0 :: p1 :: _ =>
    match decToRat p0, decToRat p1 with
    | some h, some m => some (round2 (h + m / 60))
    | _, _ => none
  | _ => none

/-- Units cleanup of clean_data: the string is split on "+" and the part
before the first "+" goes through pd.to_numeric(errors = "coerce"). -/
def unitsOf (s : String) : Option ℚ :=
  match splitOnChar '+' s.toList with
  | p :: _ => decToRat p
  | [] => none

/-! ## Rows -/

/-- One raw CSV row after header canonicalization, with the nine required
columns as raw strings. -/
structure RawRow where
  sr_no : String
  received_time : String
  dispatched_time : String
  transit_time : String
  sttn_from : String
  sttn_to : String
  cmdt : String
  totl_unts : String
  rake_type : String
deriving DecidableEq

/-- One cleaned record as produced by clean_data and persisted by
insert_cleaned_data. The commodity field is `none` exactly when the
commodity column was never created (empty commodity mapping table). -/
structure CleanRow where
  sr_no : String
  received_time : ℤ
  dispatched_time : Option ℤ
  transit_time : String
  transit_time_hrs : ℚ
  sttn_from : String
  sttn_to : String
  cmdt : String
  commodity : Option String
  rake_type : String
  totl_unts : Option ℚ
deriving DecidableEq

/-! ## clean_data -/

/-- The fixed allow-list of raw destination codes (clean_data). -/
def validDestinations : List String :=
  ["BSCS", "BSPC", "DSEY", "IISD", "BCME", "HSPG", "NHSB"]

/-- Origin codes whose rows clean_data removes. -/
def cleanSttnFrom : List String :=
  ["BNDM", "DSPY"]

/-- The fixed destination replacement table of clean_data
(Series.replace with a dict maps listed values and leaves others
unchanged). -/
def destReplace (s : String) : String :=
  if s = "BSCS" then "BSL"
  else if s = "BSPC" then "BSP"
  else if s = "DSEY" then "DSP"
  else if s = "IISD" then "ISP"
  else if s = "BCME" then "ISP"
  else if s = "HSPG" then "RSP"
  else if s = "NHSB" then "RSP"
  else s

/-- Commodity column of clean_data. The source guards the assignment with
`if commodity_mappings:`, so with an empty mapping table the commodity
column is never created, modeled here as `none`; with a nonempty table
the value is Series.replace of the raw code through the dict, which maps
a code without an entry to itself. -/
def commodity_col (cm : List (String × String)) (c : String) : Option String :=
  if cm.isEmpty then none else some ((cm.lookup c).getD c)

/-- Row-wise model of clean_data, valid on batches where the transit
split produced at least two columns (clean_data_frame models the
batch-level KeyError when it does not). On such batches every column
operation of the source acts per-row (parsing, replacement, filtering
masks, dropna), so the frame transform is the filterMap of this
function: `none` means the row is absent from the cleaned output.
Steps in source order: timestamp parsing, transit-time parsing, units
cleanup, commodity normalization, destination allow-list filter, origin
removal filter, destination standardization, and the final
dropna on received_time and transit_time_hrs. -/
def cleanRow (cm : List (String × String)) (x : RawRow) : Option CleanRow :=
  if validDestinations.contains x.sttn_to then
    if cleanSttnFrom.contains x.sttn_from then none
    else
      match parseTimestamp x.received_time, transitHours x.transit_time with
      | some rt, some tv =>
        some ⟨x.sr_no, rt, parseTimestamp x.dispatched_time, x.transit_time, tv, x.sttn_from,
              destReplace x.sttn_to, x.cmdt, commodity_col cm x.cmdt, x.rake_type,
              unitsOf x.totl_unts⟩
      | _, _ => none
  else none

/-- Model of clean_data on a batch of rows along the non-raising path:
the rows that survive, in order, with all transforms applied. -/
def clean_data (cm : List (String × String)) (rows : List RawRow) : List CleanRow :=
  rows.filterMap (cleanRow cm)

/-- Number of colon-separated parts of the transit string of a row, as
produced by str.split(":"). -/
def transitParts (x : RawRow) : ℕ :=
  (splitOnChar ':' x.transit_time.toList).length

/-- Total batch-level model of clean_data. The split
str.split(":", expand = True) at line 142 yields a frame with as many
columns as the largest per-row part count of the batch, so the parts[1]
access at line 144 exists only when some row of the batch splits into
at least two parts; on a batch where no transit string contains a
colon, parts[1] raises a KeyError that propagates out of clean_data,
modelled as `none`. On every other batch the call returns the cleaned
rows of the per-row model. -/
def clean_data_frame (cm : List (String × String)) (rows : List RawRow) :
    Option (List CleanRow) :=
  if rows.any (fun x => decide (2 ≤ transitParts x)) then some (clean_data cm rows)
  else none

/-! ## insert_cleaned_data and fallback_insert

The store is modeled as the list of natural keys already persisted.
The uniqueness enforcement itself lives in the external storage engine
(UniqueConstraint plus on_conflict_do_nothing in the source declare it).
Modelled from the spec: a conflict is equality of the six-field natural
key (received_time, sttn_from, sttn_to, cmdt, rake_type,
dispatched_time), per the natural-key contract of the spec; a null
dispatched_time is an ordinary key value. -/

/-- The six-field natural key of the unique constraint
uq_rake_time_to_from_cmdt_type. -/
structure Key where
  received_time : ℤ
  sttn_from : String
  sttn_to : String
  cmdt : String
  rake_type : String
  dispatched_time : Option ℤ
deriving DecidableEq

/-- Natural key of a cleaned record, in the column order of the
constraint declaration. -/
def rakeKey (r : CleanRow) : Key :=
  ⟨r.received_time, r.sttn_from, r.sttn_to, r.cmdt, r.rake_type, r.dispatched_time⟩

/-- Modelled from the spec: the conflict semantics of the storage
engine is not source code of this repository (the source only declares
the UniqueConstraint and calls on_conflict_do_nothing), so a conflict
is modelled per the natural-key contract of the spec as equality of the
six-field key. Sequential semantics of the chunked bulk INSERT with
conflicts ignored: each record is checked against everything already
persisted, including records inserted earlier in the same call; a
conflicting record is silently not inserted. Chunking at 50 rows only
splits the statement and does not change which rows conflict, so the
model folds over all records. Returns the number of inserted rows (the
accumulated rowcount) and the store after the call. -/
def insertKeys : List Key → List CleanRow → ℕ × List Key
  | st, [] => (0, st)
  | st, r :: rs =>
    if rakeKey r ∈ st then insertKeys st rs
    else
      let p := insertKeys (rakeKey r :: st) rs
      (p.1 + 1, p.2)

/-- Model of insert_cleaned_data on the primary (bulk) path: an empty
frame returns (0, 0) before any storage access; otherwise the records
are bulk-inserted with conflicts skipped and the function returns
(inserted, total - inserted) together with the new store. -/
def insert_cleaned_data (st : List Key) (df : List CleanRow) : ℕ × ℕ × List Key :=
  if df.isEmpty then (0, 0, st)
  else
    let p := insertKeys st df
    (p.1, df.length - p.1, p.2)

/-- Model of fallback_insert: records are attempted one at a time; a
uniqueness violation (IntegrityError) is rolled back and counted as
skipped, any other per-row failure is also counted as skipped, and a
fresh record is flushed and counted as inserted. Returns
(inserted, skipped, new store). -/
def fallback_insert : List Key → List CleanRow → ℕ × ℕ × List Key
  | st, [] => (0, 0, st)
  | st, r :: rs =>
    if rakeKey r ∈ st then
      let p := fallback_insert st rs
      (p.1, p.2.1 + 1, p.2.2)
    else
      let p := fallback_insert (rakeKey r :: st) rs
      (p.1 + 1, p.2.1, p.2.2)

/-- Model of insert_cleaned_data when the bulk path fails and the except
branch runs: fallback_insert produces (inserted, skipped), the source
reassigns total := inserted + skipped, and the returned skipped count is
total - inserted. -/
def insert_cleaned_data_fb (st : List Key) (df : List CleanRow) : ℕ × ℕ × List Key :=
  if df.isEmpty then (0, 0, st)
  else
    let p := fallback_insert st df
    (p.1, (p.1 + p.2.1) - p.1, p.2.2)

/-! ## Analytics records

query_to_df hands the analytics blocks a frame with received_time,
transit_time_hrs and the dimension columns; the dimension filters are
applied identically before every block considered here, so the record
model keeps the two fields the computations read: the timestamp (as an
abstract day number, only order and bucket membership are used) and the
transit hours. -/

/-- One queried record as seen by the analytics blocks. -/
structure Rec where
  t : ℤ
  th : ℚ
deriving DecidableEq

/-- Mean of transit_time_hrs over a group of records, as computed by the
mean aggregations of the source. -/
def meanTh (l : List Rec) : ℚ :=
  (l.map Rec.th).sum / (l.length : ℚ)

/-! ## IQR outlier detection (source_outliers and the dashboard blocks) -/

/-- Insert into a list of rationals sorted ascending. -/
def insertAsc (q : ℚ) : List ℚ → List ℚ
  | [] => [q]
  | x :: xs => if q ≤ x then q :: x :: xs else x :: insertAsc q xs

/-- Ascending insertion sort on rationals; model of the internal sort of
Series.quantile. -/
def sortAsc : List ℚ → List ℚ
  | [] => []
  | x :: xs => insertAsc x (sortAsc xs)

/-- Model of Series.quantile(q) with the default linear interpolation:
on the sorted values s of length n, h = q * (n - 1), and the result is
s[floor h] + (h - floor h) * (s[floor h + 1] - s[floor h]), the last
index clamped to the list. -/
def quantile (xs : List ℚ) (q : ℚ) : ℚ :=
  let s := sortAsc xs
  let h : ℚ := q * ((s.length : ℚ) - 1)
  let i : ℕ := (ratFloor h).toNat
  let g : ℚ := h - (ratFloor h : ℚ)
  let a := s.getD i 0
  let b := s.getD (i + 1) a
  a + g * (b - a)

/-- Q1 of transit_time_hrs over a record set. -/
def q1Of (df : List Rec) : ℚ :=
  quantile (df.map Rec.th) (1 / 4)

/-- Q3 of transit_time_hrs over a record set. -/
def q3Of (df : List Rec) : ℚ :=
  quantile (df.map Rec.th) (3 / 4)

/-- Lower IQR bound Q1 - 1.5 * IQR. -/
def lowerBound (df : List Rec) : ℚ :=
  q1Of df - 3 / 2 * (q3Of df - q1Of df)

/-- Upper IQR bound Q3 + 1.5 * IQR. -/
def upperBound (df : List Rec) : ℚ :=
  q3Of df + 3 / 2 * (q3Of df - q1Of df)

/-- Insert into a list of records sorted descending by transit hours. -/
def insertDesc (r : Rec) : List Rec → List Rec
  | [] => [r]
  | x :: xs => if x.th ≤ r.th then r :: x :: xs else x :: insertDesc r xs

/-- Descending insertion sort by transit hours; model of
sort_values(transit_time_hrs, ascending = False). -/
def sortDesc : List Rec → List Rec
  | [] => []
  | x :: xs => insertDesc x (sortDesc xs)

/-- Model of the IQR outlier block shared by source_outliers and the
four dashboard branches: on a nonempty filtered record set, bounds are
computed from that set alone, the records strictly outside the bounds
are kept, and they are returned sorted descending by transit hours. An
empty set yields the empty outlier frame. -/
def source_outliers (df : List Rec) : List Rec :=
  if df.isEmpty then []
  else
    sortDesc (df.filter (fun r => decide (r.th < lowerBound df) || decide (upperBound df < r.th)))

/-! ## Time-bucketed aggregation (resample + agg + dropna) -/

/-- Smallest timestamp of a nonempty record list (0 as junk value on the
empty list, which the callers exclude). -/
def tminOf : List Rec → ℤ
  | [] => 0
  | r :: rs => rs.foldl (fun m x => min m x.t) r.t

/-- Largest timestamp of a nonempty record list. -/
def tmaxOf : List Rec → ℤ
  | [] => 0
  | r :: rs => rs.foldl (fun m x => max m x.t) r.t

/-- Integer interval a, a + 1, ..., b as a list. -/
def intRange (a b : ℤ) : List ℤ :=
  (List.range (b + 1 - a).toNat).map (fun i : ℕ => a + (i : ℤ))

/-- The records of one bucket. -/
def bucketRecs (bucketOf : ℤ → ℤ) (b : ℤ) (recs : List Rec) : List Rec :=
  recs.filter (fun r => decide (bucketOf r.t = b))

/-- Model of df.set_index(received_time).resample(rule).agg(mean, count)
followed by dropna, for a bucket-assignment function standing for the
resample rule (calendar month for MS, and so on). resample materializes
one bin for every period between the first and last timestamp; a bin
with no records aggregates to a null mean and is removed by dropna, so
the output keeps, in ascending bucket order, exactly the nonempty
buckets with their mean transit hours and record count. -/
def resampleAgg (bucketOf : ℤ → ℤ) (recs : List Rec) : List (ℤ × ℚ × ℕ) :=
  if recs.isEmpty then []
  else
    (intRange (bucketOf (tminOf recs)) (bucketOf (tmaxOf recs))).filterMap (fun b =>
      let g := bucketRecs bucketOf b recs
      if g.isEmpty then none else some (b, meanTh g, g.length))

/-! ## Daily aggregation and the CSV export (dashboard versus export) -/

/-- Insert into a list of integers sorted ascending. -/
def insertAscInt (d : ℤ) : List ℤ → List ℤ
  | [] => [d]
  | x :: xs => if d ≤ x then d :: x :: xs else x :: insertAscInt d xs

/-- Ascending insertion sort on integers. -/
def sortAscInt : List ℤ → List ℤ
  | [] => []
  | x :: xs => insertAscInt x (sortAscInt xs)

/-- Model of groupby(date).agg(mean, count): one row per distinct
calendar date carrying the mean transit hours and the record count of
that date, rows in ascending date order (groupby sorts its keys). Both
the last30days dashboard branch and the last30days export branch run
exactly this aggregation. -/
def groupbyDaily (recs : List Rec) : List (ℤ × ℚ × ℕ) :=
  (sortAscInt (recs.map Rec.t).dedup).map (fun d =>
    let g := recs.filter (fun r => decide (r.t = d))
    (d, meanTh g, g.length))

/-- The daily table rendered by the dashboard: the groupby aggregation
with the mean rounded to two decimals (result round(2) in the source). -/
def dashboard_daily (recs : List Rec) : List (ℤ × ℚ × ℕ) :=
  (groupbyDaily recs).map (fun e => (e.1, round2 e.2.1, e.2.2))

/-- The daily table written to CSV by export_csv: the same groupby
aggregation, with the mean not rounded. -/
def export_daily (recs : List Rec) : List (ℤ × ℚ × ℕ) :=
  groupbyDaily recs

/-- The monthly table rendered by the dashboard: resample(MS) keyed by
month start, aggregated, rounded to two decimals, and dropna removes
the empty months. -/
def dashboard_monthly (bucketOf : ℤ → ℤ) (recs : List Rec) : List (ℤ × ℚ × ℕ) :=
  (resampleAgg bucketOf recs).map (fun e => (e.1, round2 e.2.1, e.2.2))

/-- The monthly table written to CSV by export_csv: resample(ME) keyed
by month end, aggregated, with no rounding and no dropna, so every
month between the first and last record appears, an empty month with a
null mean and count 0. The bucket component is the calendar month; the
written label differs from the dashboard label (a month-end timestamp
against a formatted month-start), which only strengthens the
divergence recorded about this pair of tables. -/
def export_monthly (bucketOf : ℤ → ℤ) (recs : List Rec) : List (ℤ × Option ℚ × ℕ) :=
  if recs.isEmpty then []
  else
    (intRange (bucketOf (tminOf recs)) (bucketOf (tmaxOf recs))).map (fun b =>
      let g := bucketRecs bucketOf b recs
      (b, if g.isEmpty then none else some (meanTh g), g.length))

/-! ## Best-window reduction (commodity_analysis) -/

/-- Model of the Python min builtin with a key function: the first
element attaining the minimal key, none on an empty list. -/
def pyMinBy {α : Type} (f : α → ℚ) : List α → Option α
  | [] => none
  | x :: xs =>
    match pyMinBy f xs with
    | none => some x
    | some m => if f x ≤ f m then some x else some m

/-- The weekly buckets built by commodity_analysis for the best-weekly
reduction: week_num runs from 0 to 11, week wEnd = yesterday - 7 *
week_num (so the list is generated most recent week first), the window
is the closed day interval [wEnd - 6, wEnd], and only nonempty weeks
are kept, each with its mean transit hours and count. The source keeps
only avg and count per week; the wEnd component is carried here so the
temporal position of the selected bucket can be stated, and it does not
influence the selection, whose key is the avg alone. This function
holds the records of the week window [wEnd - 6, wEnd] for
week_num = i, wEnd = yesterday - 7 i. -/
def weekRecs (y : ℤ) (recs : List Rec) (i : ℕ) : List Rec :=
  recs.filter (fun r => decide (y - 7 * (i : ℤ) - 6 ≤ r.t) && decide (r.t ≤ y - 7 * (i : ℤ)))

/-- The nonempty weekly buckets in generation order, each carrying its
week end, mean transit hours and count. -/
def weeklyBuckets (y : ℤ) (recs : List Rec) : List (ℤ × ℚ × ℕ) :=
  (List.range 12).filterMap (fun i : ℕ =>
    if (weekRecs y recs i).isEmpty then none
    else some (y - 7 * (i : ℤ), meanTh (weekRecs y recs i), (weekRecs y recs i).length))

/-- Model of the best-weekly reduction of commodity_analysis: guarded by
the records of the last 90 days being nonempty, then the Python min over
the weekly results by avg, returning (avg, count) of the selected week. -/
def best_weekly (y : ℤ) (recs : List Rec) : Option (ℚ × ℕ) :=
  if (recs.filter (fun r => decide (y - 90 ≤ r.t))).isEmpty then none
  else (pyMinBy (fun b => b.2.1) (weeklyBuckets y recs)).map (fun b => (b.2.1, b.2.2))

/-- Minimum of the avg column of a bucket list (0 as junk value on the
empty list, which the caller excludes). -/
def minAvg : List (ℤ × ℚ × ℕ) → ℚ
  | [] => 0
  | x :: xs => xs.foldl (fun a b => min a b.2.1) x.2.1

/-- Model of the best-monthly reduction of commodity_analysis applied to
the nonempty monthly buckets in ascending month order:
best_monthly_avg is the minimum of the avg column, and the reported
count is taken from the first row whose avg equals that minimum.
The source guards the count with the float truthiness of
best_monthly_avg, so a minimal mean equal to 0 reports count 0. -/
def best_monthly (l : List (ℤ × ℚ × ℕ)) : Option ℚ × ℕ :=
  match l with
  | [] => (none, 0)
  | x :: xs =>
    let m := minAvg (x :: xs)
    (some m,
      if m = 0 then 0
      else
        match (x :: xs).find? (fun b => decide (b.2.1 = m)) with
        | some b => b.2.2
        | none => 0)

/-! ## Concrete inputs used by witnesses and counterexamples -/

/-- A cleaned record with a given rake type and dispatched time, all
other fields fixed. -/
def sampleClean (rt : String) (d : Option ℤ) : CleanRow :=
  ⟨"1", 0, d, "5:30", 5.5, "AAA", "BSL", "COAL", some "COAL", rt, some 58⟩

/-- A two-record batch whose natural keys differ only in rake_type. -/
def sampleBatch : List CleanRow :=
  [sampleClean "BOXN" (some 1), sampleClean "BOXNHL" (some 1)]

/-- A raw row that survives every cleaning step. -/
def sampleRaw : RawRow :=
  ⟨"1", "05-01-2025 10:00", "06-01-2025 02:30", "16:30", "AAA", "BSCS", "COAL", "58", "BOXN"⟩

/-- The cleaned record that clean_data produces from sampleRaw with an
empty commodity table. -/
def sampleRawClean : CleanRow :=
  ⟨"1", (((2025 * 500 + 1 * 31 + 5) * 24 + 10) * 60 + 0 : ℕ),
    some (((2025 * 500 + 1 * 31 + 6) * 24 + 2) * 60 + 30 : ℕ),
    "16:30", 16.5, "AAA", "BSL", "COAL", none, "BOXN", some 58⟩

/-- The sample row with a destination outside the allow-list. -/
def badDestRow : RawRow :=
  { sampleRaw with sttn_to := "XXXX" }

/-- The sample row originating from BNDM. -/
def bndmRow : RawRow :=
  { sampleRaw with sttn_from := "BNDM" }

/-- The sample row with an unparseable transit time. -/
def abcRow : RawRow :=
  { sampleRaw with transit_time := "abc" }

/-- The record set of the outlier witness, transit hours 1..5 and 100. -/
def dfOutlier : List Rec :=
  [⟨0, 1⟩, ⟨0, 2⟩, ⟨0, 3⟩, ⟨0, 4⟩, ⟨0, 5⟩, ⟨0, 100⟩]

/-- A two-month bucket assignment: day numbers 1..31 are month 0 and
later days month 1 (January and February of the witness calendar). -/
def monthOf01 : ℤ → ℤ :=
  fun d => if d ≤ 31 then 0 else 1

/-- Records on Jan 5, Jan 20 and Feb 2 in day numbers of that calendar. -/
def recsJanFeb : List Rec :=
  [⟨5, 10⟩, ⟨20, 20⟩, ⟨33, 30⟩]

/-- A three-month bucket assignment: days 1..31 month 0, days 32..59
month 1, later days month 2. -/
def monthOf3 : ℤ → ℤ :=
  fun d => if d ≤ 31 then 0 else if d ≤ 59 then 1 else 2

/-- One record in month 0 and one in month 2, nothing in month 1. -/
def recsJanMar : List Rec :=
  [⟨10, 6⟩, ⟨70, 8⟩]

/-- Two weeks that tie at mean 5 with different counts: the week ending
on day 100 holds transit hours 4 and 6, the earlier week ending on day
93 holds a single 5. -/
def recsTie : List Rec :=
  [⟨100, 4⟩, ⟨100, 6⟩, ⟨90, 5⟩]

/-- Two weeks with distinct means for the best-weekly witness. -/
def recsBest : List Rec :=
  [⟨100, 4⟩, ⟨90, 3⟩]

/-- Two monthly buckets with distinct means for the best-monthly
witness. -/
def bucketsBest : List (ℤ × ℚ × ℕ) :=
  [(0, 3, 2), (1, 4, 7)]

/-! # Theorems

Helper lemmas first, then one theorem per claim, each with its witness
or counterexample where required. -/

/-! ## Lemmas on the insert model -/

lemma insertKeys_fst_le (df : List CleanRow) : ∀ st : List Key, (insertKeys st df).1 ≤ df.length := by
  induction df with
  | nil => intro st; simp [insertKeys]
  | cons r rs ih =>
    intro st
    simp only [insertKeys, List.length_cons]
    split
    · exact (ih st).trans (Nat.le_succ _)
    · exact Nat.succ_le_succ (ih _)

lemma insertKeys_mem (df : List CleanRow) :
    ∀ (st : List Key) (k : Key), k ∈ (insertKeys st df).2 ↔ k ∈ st ∨ k ∈ df.map rakeKey := by
  induction df with
  | nil => intro st k; simp [insertKeys]
  | cons r rs ih =>
    intro st k
    simp only [insertKeys, List.map_cons, List.mem_cons]
    split
    · rename_i hmem
      rw [ih st k]
      constructor
      · rintro (h | h)
        · exact Or.inl h
        · exact Or.inr (Or.inr h)
      · rintro (h | h | h)
        · exact Or.inl h
        · exact Or.inl (h ▸ hmem)
        · exact Or.inr h
    · rw [ih (rakeKey r :: st) k]
      simp only [List.mem_cons]
      tauto

lemma insertKeys_fresh (df : List CleanRow) :
    ∀ st : List Key, (df.map rakeKey).Nodup → (∀ r ∈ df, rakeKey r ∉ st) →
      (insertKeys st df).1 = df.length := by
  induction df with
  | nil => intro st _ _; simp [insertKeys]
  | cons r rs ih =>
    intro st hnd hfresh
    simp only [List.map_cons, List.nodup_cons] at hnd
    have hr : rakeKey r ∉ st := hfresh r (List.mem_cons_self r rs)
    simp only [insertKeys, if_neg hr, List.length_cons]
    have : (insertKeys (rakeKey r :: st) rs).1 = rs.length := by
      apply ih _ hnd.2
      intro x hx
      simp only [List.mem_cons]
      rintro (h | h)
      · exact hnd.1 (h ▸ List.mem_map_of_mem rakeKey hx)
      · exact hfresh x (List.mem_cons_of_mem r hx) h
    omega

lemma insertKeys_allDup (df : List CleanRow) :
    ∀ st : List Key, (∀ r ∈ df, rakeKey r ∈ st) → insertKeys st df = (0, st) := by
  induction df with
  | nil => intro st _; simp [insertKeys]
  | cons r rs ih =>
    intro st hall
    have hr : rakeKey r ∈ st := hall r (List.mem_cons_self r rs)
    simp only [insertKeys, if_pos hr]
    exact ih st (fun x hx => hall x (List.mem_cons_of_mem r hx))

lemma fallback_insert_sum (recs : List CleanRow) :
    ∀ st : List Key, (fallback_insert st recs).1 + (fallback_insert st recs).2.1 = recs.length := by
  induction recs with
  | nil => intro st; simp [fallback_insert]
  | cons r rs ih =>
    intro st
    simp only [fallback_insert, List.length_cons]
    split
    · have := ih st
      dsimp only
      omega
    · have := ih (rakeKey r :: st)
      dsimp only
      omega

/-- A batch of pairwise-distinct fresh keys is inserted in full. -/
lemma insert_fresh_counts (st : List Key) (df : List CleanRow)
    (hnd : (df.map rakeKey).Nodup) (hfresh : ∀ r ∈ df, rakeKey r ∉ st) :
    (insert_cleaned_data st df).1 = df.length ∧ (insert_cleaned_data st df).2.1 = 0 := by
  rcases hdf : df with _ | ⟨r, rs⟩
  · simp [insert_cleaned_data, insertKeys]
  rw [← hdf]
  have hne : df.isEmpty = false := by rw [hdf]; rfl
  have h1 : (insertKeys st df).1 = df.length := insertKeys_fresh df st hnd hfresh
  constructor <;> simp [insert_cleaned_data, hne, h1]

/-! ## Claim C1 -/

/-- Claim C1: for a batch whose six-field natural keys are pairwise
distinct and not already stored, insert_cleaned_data inserts everything
and skips nothing, and a second call with the same batch inserts
nothing and skips everything; two records differing in rake_type are
both inserted, and a record whose key is already stored is silently
skipped with the store unchanged. -/
theorem C1_idempotent_ingestion :
    (∀ (st : List Key) (df : List CleanRow),
      (df.map rakeKey).Nodup → (∀ r ∈ df, rakeKey r ∉ st) →
      (insert_cleaned_data st df).1 = df.length ∧
      (insert_cleaned_data st df).2.1 = 0 ∧
      (insert_cleaned_data (insert_cleaned_data st df).2.2 df).1 = 0 ∧
      (insert_cleaned_data (insert_cleaned_data st df).2.2 df).2.1 = df.length) ∧
    (∀ (st : List Key) (r1 r2 : CleanRow),
      r1.rake_type ≠ r2.rake_type → rakeKey r1 ∉ st → rakeKey r2 ∉ st →
      (insert_cleaned_data st [r1, r2]).1 = 2 ∧ (insert_cleaned_data st [r1, r2]).2.1 = 0) ∧
    (∀ (st : List Key) (r : CleanRow),
      rakeKey r ∈ st → insert_cleaned_data st [r] = (0, 1, st)) := by
  refine ⟨?_, ?_, ?_⟩
  · intro st df hnd hfresh
    rcases insert_fresh_counts st df hnd hfresh with ⟨hc1, hc2⟩
    refine ⟨hc1, hc2, ?_, ?_⟩ <;>
    · rcases hdf : df with _ | ⟨r, rs⟩
      · simp [insert_cleaned_data, insertKeys]
      rw [← hdf]
      have hne : df.isEmpty = false := by rw [hdf]; rfl
      have hst2 : (insert_cleaned_data st df).2.2 = (insertKeys st df).2 := by
        simp [insert_cleaned_data, hne]
      have hall : ∀ x ∈ df, rakeKey x ∈ (insertKeys st df).2 := by
        intro x hx
        rw [insertKeys_mem]
        exact Or.inr (List.mem_map_of_mem rakeKey hx)
      have h2 : insertKeys (insertKeys st df).2 df = (0, (insertKeys st df).2) :=
        insertKeys_allDup df _ hall
      rw [hst2]
      simp [insert_cleaned_data, hne, h2]
  · intro st r1 r2 hrt h1 h2
    have hkey : rakeKey r1 ≠ rakeKey r2 := by
      intro h
      exact hrt (congrArg Key.rake_type h)
    have hnd : (([r1, r2]).map rakeKey).Nodup := by
      simp [List.nodup_cons, hkey]
    have hfresh : ∀ r ∈ [r1, r2], rakeKey r ∉ st := by
      intro r hr
      rcases List.mem_cons.1 hr with h | h
      · exact h ▸ h1
      · rcases List.mem_cons.1 h with h | h
        · exact h ▸ h2
        · cases h
    exact insert_fresh_counts st [r1, r2] hnd hfresh
  · intro st r hmem
    have hall : ∀ x ∈ [r], rakeKey x ∈ st := by
      intro x hx
      rcases List.mem_cons.1 hx with h | h
      · exact h ▸ hmem
      · cases h
    have h := insertKeys_allDup [r] st hall
    simp [insert_cleaned_data, h]

/-- Witness for claim C1 at a concrete store and batch. -/
theorem C1_idempotent_ingestion_witness :
    ((sampleBatch.map rakeKey).Nodup ∧ (∀ r ∈ sampleBatch, rakeKey r ∉ ([] : List Key)) ∧
      (sampleClean "BOXN" (some 1)).rake_type ≠ (sampleClean "BOXNHL" (some 1)).rake_type ∧
      rakeKey (sampleClean "BOXN" (some 1)) ∈ [rakeKey (sampleClean "BOXN" (some 1))]) ∧
    ((insert_cleaned_data [] sampleBatch).1 = sampleBatch.length ∧
      (insert_cleaned_data [] sampleBatch).2.1 = 0 ∧
      (insert_cleaned_data (insert_cleaned_data [] sampleBatch).2.2 sampleBatch).1 = 0 ∧
      (insert_cleaned_data (insert_cleaned_data [] sampleBatch).2.2 sampleBatch).2.1 = sampleBatch.length) ∧
    ((insert_cleaned_data [] sampleBatch).1 = 2 ∧ (insert_cleaned_data [] sampleBatch).2.1 = 0) ∧
    insert_cleaned_data [rakeKey (sampleClean "BOXN" (some 1))] [sampleClean "BOXN" (some 1)] =
      (0, 1, [rakeKey (sampleClean "BOXN" (some 1))]) :=
  ⟨⟨by decide, by decide, by decide, by decide⟩,
    C1_idempotent_ingestion.1 [] sampleBatch (by decide) (by decide),
    C1_idempotent_ingestion.2.1 [] (sampleClean "BOXN" (some 1)) (sampleClean "BOXNHL" (some 1))
      (by decide) (by decide) (by decide),
    C1_idempotent_ingestion.2.2 [rakeKey (sampleClean "BOXN" (some 1))]
      (sampleClean "BOXN" (some 1)) (by decide)⟩

/-! ## Claim C4 -/

/-- Claim C4: on the bulk path and on the fallback path alike,
insert_cleaned_data returns a pair with skipped = total - inserted, and
an empty batch returns (0, 0) with the store untouched. -/
theorem C4_skipped_invariant :
    ∀ (st : List Key) (df : List CleanRow),
      (insert_cleaned_data st df).1 + (insert_cleaned_data st df).2.1 = df.length ∧
      (insert_cleaned_data_fb st df).1 + (insert_cleaned_data_fb st df).2.1 = df.length ∧
      insert_cleaned_data st [] = (0, 0, st) ∧
      insert_cleaned_data_fb st [] = (0, 0, st) := by
  intro st df
  refine ⟨?_, ?_, by simp [insert_cleaned_data], by simp [insert_cleaned_data_fb]⟩
  · rcases hdf : df with _ | ⟨r, rs⟩
    · simp [insert_cleaned_data]
    rw [← hdf]
    have hne : df.isEmpty = false := by rw [hdf]; rfl
    have := insertKeys_fst_le df st
    simp only [insert_cleaned_data, hne, Bool.false_eq_true, if_false]
    omega
  · rcases hdf : df with _ | ⟨r, rs⟩
    · simp [insert_cleaned_data_fb]
    rw [← hdf]
    have hne : df.isEmpty = false := by rw [hdf]; rfl
    have := fallback_insert_sum df st
    simp only [insert_cleaned_data_fb, hne, Bool.false_eq_true, if_false]
    omega

/-! ## Lemmas on the cleaning model -/

lemma cleanRow_dest_none (cm : List (String × String)) (x : RawRow)
    (h : validDestinations.contains x.sttn_to = false) : cleanRow cm x = none := by
  unfold cleanRow
  rw [if_neg (show ¬ validDestinations.contains x.sttn_to = true by simpa using h)]

lemma cleanRow_origin_none (cm : List (String × String)) (x : RawRow)
    (h : cleanSttnFrom.contains x.sttn_from = true) : cleanRow cm x = none := by
  unfold cleanRow
  split <;> simp [h]

lemma cleanRow_transit_none (cm : List (String × String)) (x : RawRow)
    (h : transitHours x.transit_time = none) : cleanRow cm x = none := by
  unfold cleanRow
  split
  · split
    · rfl
    · rw [h]
      rcases parseTimestamp x.received_time with _ | rt <;> rfl
  · rfl

lemma cleanRow_some (cm : List (String × String)) (x : RawRow) (r : CleanRow)
    (h : cleanRow cm x = some r) :
    validDestinations.contains x.sttn_to = true ∧
    cleanSttnFrom.contains x.sttn_from = false ∧
    r.sttn_to = destReplace x.sttn_to ∧
    r.sttn_from = x.sttn_from ∧
    transitHours x.transit_time = some r.transit_time_hrs ∧
    parseTimestamp x.received_time = some r.received_time ∧
    r.commodity = commodity_col cm x.cmdt ∧
    r.transit_time = x.transit_time := by
  unfold cleanRow at h
  by_cases h1 : validDestinations.contains x.sttn_to = true
  case neg =>
    rw [if_neg h1] at h
    cases h
  rw [if_pos h1] at h
  by_cases h2 : cleanSttnFrom.contains x.sttn_from = true
  case pos =>
    rw [if_pos h2] at h
    cases h
  rw [if_neg h2] at h
  rcases hrc : parseTimestamp x.received_time with _ | rt <;>
    rcases hth : transitHours x.transit_time with _ | tv <;>
      rw [hrc, hth] at h
  · cases h
  · cases h
  · cases h
  · cases h
    refine ⟨h1, by simpa using h2, rfl, rfl, rfl, rfl, rfl, rfl⟩

/-! ## Claim C2 (corrected: five canonical destinations, not four) -/

/-- Counterexample to claim C2 as stated: the destination collapse table
sends the seven allow-listed raw codes onto five distinct canonical
codes, not four. -/
theorem C2_destination_collapse_counterexample :
    (validDestinations.map destReplace).dedup = ["BSL", "BSP", "DSP", "ISP", "RSP"] ∧
    (validDestinations.map destReplace).dedup.length = 5 ∧
    (validDestinations.map destReplace).dedup.length ≠ 4 := by
  refine ⟨by decide, by decide, by decide⟩

/-- Claim C2 as amended: a row survives only if its raw destination is
one of the seven allow-listed codes, a row outside them is dropped with
no error, surviving codes are rewritten exactly through the documented
seven-entry table, and the seven raw codes collapse onto five canonical
destinations. -/
theorem C2_destination_collapse :
    (∀ (cm : List (String × String)) (x : RawRow),
      validDestinations.contains x.sttn_to = false → cleanRow cm x = none) ∧
    (∀ (cm : List (String × String)) (x : RawRow) (r : CleanRow),
      cleanRow cm x = some r →
      x.sttn_to ∈ validDestinations ∧ r.sttn_to = destReplace x.sttn_to) ∧
    destReplace "BSCS" = "BSL" ∧ destReplace "BSPC" = "BSP" ∧
    destReplace "DSEY" = "DSP" ∧ destReplace "IISD" = "ISP" ∧
    destReplace "BCME" = "ISP" ∧ destReplace "HSPG" = "RSP" ∧
    destReplace "NHSB" = "RSP" ∧
    (validDestinations.map destReplace).dedup = ["BSL", "BSP", "DSP", "ISP", "RSP"] := by
  refine ⟨?_, ?_, by decide, by decide, by decide, by decide, by decide, by decide, by decide, by decide⟩
  · exact cleanRow_dest_none
  · intro cm x r h
    rcases cleanRow_some cm x r h with ⟨h1, _, h3, _⟩
    refine ⟨?_, h3⟩
    simpa using h1

/-- Witness for the amended claim C2 at concrete rows. -/
theorem C2_destination_collapse_witness :
    (validDestinations.contains badDestRow.sttn_to = false ∧
      cleanRow [] badDestRow = none) ∧
    (cleanRow [] sampleRaw = some sampleRawClean ∧
      sampleRaw.sttn_to ∈ validDestinations ∧
      sampleRawClean.sttn_to = destReplace sampleRaw.sttn_to) :=
  ⟨⟨by decide, C2_destination_collapse.1 [] badDestRow (by decide)⟩,
    ⟨by decide, C2_destination_collapse.2.1 [] sampleRaw sampleRawClean (by decide)⟩⟩

/-! ## Claim C3 (corrected: a colon-free batch raises on parts[1]) -/

/-- Counterexample to claim C3 as stated: on the single-row batch whose
transit string is "abc" — the example named by the claim — no row of
the batch contains a colon, so the expand split yields a single column
and the parts[1] access raises a KeyError; clean_data fails on the
whole batch (`none`) instead of returning the normalized output with
the row dropped (`some []`). The same row IS silently dropped when
another row of the batch carries a colon, showing the drop-no-exception
behaviour is batch-dependent, not universal as claimed. -/
theorem C3_duration_parsing_counterexample :
    clean_data_frame [] [abcRow] = none ∧
    clean_data_frame [] [abcRow] ≠ some [] ∧
    transitHours abcRow.transit_time = none ∧
    clean_data_frame [] [abcRow, sampleRaw] = some [sampleRawClean] := by
  refine ⟨by decide, by decide, by decide, by decide⟩

/-- Claim C3 as amended: when the raw transit string splits on ":" into
a numeric hour part and a numeric minute part (further parts ignored),
the cleaned value is round(hours + minutes / 60, 2), and a surviving
row carries exactly that value. In a batch where at least one transit
string contains a colon, a row whose hour or minute part is not numeric
is dropped with no exception; but on a batch where no transit string
contains a colon, the expand split yields no second column and
clean_data raises a KeyError on parts[1] instead of dropping the rows.
The documented examples evaluate as stated. -/
theorem C3_duration_parsing :
    (∀ (s : String) (hp mp : List Char) (rest : List (List Char)) (h m : ℚ),
      splitOnChar ':' s.toList = hp :: mp :: rest →
      decToRat hp = some h → decToRat mp = some m →
      transitHours s = some (round2 (h + m / 60))) ∧
    (∀ (cm : List (String × String)) (x : RawRow),
      transitHours x.transit_time = none → cleanRow cm x = none) ∧
    (∀ (cm : List (String × String)) (x : RawRow) (r : CleanRow),
      cleanRow cm x = some r → transitHours x.transit_time = some r.transit_time_hrs) ∧
    (∀ (cm : List (String × String)) (rows : List RawRow),
      rows.any (fun x => decide (2 ≤ transitParts x)) = true →
      clean_data_frame cm rows = some (clean_data cm rows)) ∧
    (∀ (cm : List (String × String)) (rows : List RawRow),
      rows.any (fun x => decide (2 ≤ transitParts x)) = false →
      clean_data_frame cm rows = none) ∧
    transitHours "5:30" = some 5.5 ∧
    transitHours "5:45" = some 5.75 ∧
    transitHours "abc" = none := by
  refine ⟨?_, ?_, ?_, ?_, ?_, by decide, by decide, by decide⟩
  · intro s hp mp rest h m hsplit hh hm
    unfold transitHours
    rw [hsplit]
    dsimp only
    rw [hh, hm]
  · exact cleanRow_transit_none
  · intro cm x r h
    exact (cleanRow_some cm x r h).2.2.2.2.1
  · intro cm rows h
    unfold clean_data_frame
    rw [if_pos h]
  · intro cm rows h
    unfold clean_data_frame
    rw [if_neg (show ¬ rows.any (fun x => decide (2 ≤ transitParts x)) = true from
      fun hc => Bool.false_ne_true (h ▸ hc))]

/-- Witness for the amended claim C3 at a concrete transit string, a
batch with a colon row and a batch with none. -/
theorem C3_duration_parsing_witness :
    (splitOnChar ':' ("7:30").toList = [['7'], ['3', '0']] ∧
      decToRat ['7'] = some 7 ∧ decToRat ['3', '0'] = some 30 ∧
      transitHours abcRow.transit_time = none ∧
      cleanRow [] sampleRaw = some sampleRawClean ∧
      ([abcRow, sampleRaw].any (fun x => decide (2 ≤ transitParts x)) = true) ∧
      ([abcRow].any (fun x => decide (2 ≤ transitParts x)) = false)) ∧
    transitHours "7:30" = some (round2 (7 + 30 / 60)) ∧
    cleanRow [] abcRow = none ∧
    transitHours sampleRaw.transit_time = some sampleRawClean.transit_time_hrs ∧
    clean_data_frame [] [abcRow, sampleRaw] = some (clean_data [] [abcRow, sampleRaw]) ∧
    clean_data_frame [] [abcRow] = none :=
  ⟨⟨by decide, by decide, by decide, by decide, by decide, by decide, by decide⟩,
    C3_duration_parsing.1 "7:30" ['7'] ['3', '0'] [] 7 30 (by decide) (by decide) (by decide),
    C3_duration_parsing.2.1 [] abcRow (by decide),
    C3_duration_parsing.2.2.1 [] sampleRaw sampleRawClean (by decide),
    C3_duration_parsing.2.2.2.1 [] [abcRow, sampleRaw] (by decide),
    C3_duration_parsing.2.2.2.2.1 [] [abcRow] (by decide)⟩

/-! ## Claim C10 -/

/-- Claim C10: the cleaned output never contains a record whose origin
code is BNDM or DSPY; a row with such an origin is silently dropped by
clean_data even when every other field is valid, reducing the record
count beyond the destination, timestamp and duration drops. -/
theorem C10_origin_filter :
    (∀ (cm : List (String × String)) (rows : List RawRow) (r : CleanRow),
      r ∈ clean_data cm rows → r.sttn_from ≠ "BNDM" ∧ r.sttn_from ≠ "DSPY") ∧
    (∀ (cm : List (String × String)) (x : RawRow),
      x.sttn_from = "BNDM" ∨ x.sttn_from = "DSPY" → cleanRow cm x = none) := by
  constructor
  · intro cm rows r hr
    rcases List.mem_filterMap.1 hr with ⟨x, _, hx⟩
    rcases cleanRow_some cm x r hx with ⟨_, h2, _, h4, _⟩
    rw [h4]
    constructor <;> intro heq <;> rw [heq] at h2 <;> exact absurd h2 (by decide)
  · intro cm x hx
    apply cleanRow_origin_none
    rcases hx with h | h <;> rw [h] <;> decide

/-- Witness for claim C10 at a concrete batch holding one BNDM row and
one surviving row. -/
theorem C10_origin_filter_witness :
    (sampleRawClean ∈ clean_data [] [bndmRow, sampleRaw] ∧
      (bndmRow.sttn_from = "BNDM" ∨ bndmRow.sttn_from = "DSPY")) ∧
    (sampleRawClean.sttn_from ≠ "BNDM" ∧ sampleRawClean.sttn_from ≠ "DSPY") ∧
    cleanRow [] bndmRow = none ∧
    clean_data [] [bndmRow, sampleRaw] = [sampleRawClean] :=
  ⟨⟨by decide, by decide⟩,
    C10_origin_filter.1 [] [bndmRow, sampleRaw] sampleRawClean (by decide),
    C10_origin_filter.2 [] bndmRow (by decide),
    by decide⟩

/-! ## Claim C8 (code bug: an empty commodity table drops the column) -/

/-- Claim C8 evaluated on the code. With a nonempty alias table, a code
without an entry passes through unchanged, as the claim states. With an
empty table, however, the source guard `if commodity_mappings:` skips
creating the commodity column entirely, so the cleaned row carries no
commodity value at all (`none` here) instead of the raw code required
by the claim; insert_cleaned_data then reads row[commodity]
unconditionally, so ingesting such a frame raises a KeyError instead of
storing rows whose commodity equals the raw code. -/
theorem C8_alias_identity_bug :
    commodity_col [] "COAL" = none ∧
    commodity_col [("CMX", "Cement")] "COAL" = some "COAL" ∧
    commodity_col [("COAL", "Coal")] "COAL" = some "Coal" ∧
    (cleanRow [] sampleRaw).map CleanRow.commodity = some none ∧
    (cleanRow [("CMX", "Cement")] sampleRaw).map CleanRow.commodity = some (some "COAL") := by
  refine ⟨by decide, by decide, by decide, by decide, by decide⟩

/-! ## Lemmas on the outlier model -/

lemma mem_insertDesc (r a : Rec) (l : List Rec) : a ∈ insertDesc r l ↔ a = r ∨ a ∈ l := by
  induction l with
  | nil => simp [insertDesc]
  | cons x xs ih =>
    simp only [insertDesc]
    split
    · simp [List.mem_cons]
    · simp only [List.mem_cons, ih]
      tauto

lemma mem_sortDesc (a : Rec) (l : List Rec) : a ∈ sortDesc l ↔ a ∈ l := by
  induction l with
  | nil => simp [sortDesc]
  | cons x xs ih => simp [sortDesc, mem_insertDesc, ih]

lemma sorted_insertDesc (r : Rec) (l : List Rec)
    (h : l.Sorted (fun a b => b.th ≤ a.th)) :
    (insertDesc r l).Sorted (fun a b => b.th ≤ a.th) := by
  induction l with
  | nil => simp [insertDesc]
  | cons x xs ih =>
    rcases List.sorted_cons.1 h with ⟨hx, hxs⟩
    simp only [insertDesc]
    split
    · rename_i hle
      refine List.sorted_cons.2 ⟨?_, h⟩
      intro b hb
      rcases List.mem_cons.1 hb with rfl | hb
      · exact hle
      · exact le_trans (hx b hb) hle
    · rename_i hgt
      push_neg at hgt
      refine List.sorted_cons.2 ⟨?_, ih hxs⟩
      intro b hb
      rcases (mem_insertDesc r b xs).1 hb with rfl | hb
      · exact le_of_lt hgt
      · exact hx b hb

lemma sorted_sortDesc (l : List Rec) : (sortDesc l).Sorted (fun a b => b.th ≤ a.th) := by
  induction l with
  | nil => simp [sortDesc]
  | cons x xs ih => exact sorted_insertDesc x (sortDesc xs) ih

/-! ## Claim C5 -/

/-- Claim C5: on a nonempty filtered record set, the outlier block flags
exactly the records whose transit hours lie strictly outside the IQR
bounds computed from that same set, and returns them sorted descending
by transit hours. The bounds are a pure function of the record set
handed in, so each query recomputes them from its own set only. -/
theorem C5_iqr_outliers (df : List Rec) (hne : df ≠ []) :
    (∀ r : Rec, r ∈ source_outliers df ↔
      r ∈ df ∧ (r.th < lowerBound df ∨ upperBound df < r.th)) ∧
    (source_outliers df).Sorted (fun a b => b.th ≤ a.th) := by
  have hne2 : df.isEmpty = false := by
    cases df
    · cases hne rfl
    · rfl
  constructor
  · intro r
    simp only [source_outliers, hne2, Bool.false_eq_true, if_false]
    rw [mem_sortDesc, List.mem_filter]
    simp
  · simp only [source_outliers, hne2, Bool.false_eq_true, if_false]
    exact sorted_sortDesc _

/-- Witness for claim C5 on the record set with transit hours 1..5 and
100: the bounds evaluate to -1.5 and 8.5 and only the 100 record is
flagged. -/
theorem C5_iqr_outliers_witness :
    dfOutlier ≠ [] ∧
    ((∀ r : Rec, r ∈ source_outliers dfOutlier ↔
        r ∈ dfOutlier ∧ (r.th < lowerBound dfOutlier ∨ upperBound dfOutlier < r.th)) ∧
      (source_outliers dfOutlier).Sorted (fun a b => b.th ≤ a.th)) ∧
    q1Of dfOutlier = 2.25 ∧ q3Of dfOutlier = 4.75 ∧
    lowerBound dfOutlier = -1.5 ∧ upperBound dfOutlier = 8.5 ∧
    source_outliers dfOutlier = [⟨0, 100⟩] :=
  ⟨by decide, C5_iqr_outliers dfOutlier (by decide),
    by decide, by decide, by decide, by decide, by decide⟩

/-! ## Lemmas on the resample model -/

lemma foldl_min_spec (l : List Rec) :
    ∀ a : ℤ, l.foldl (fun m x => min m x.t) a ≤ a ∧
      ∀ r ∈ l, l.foldl (fun m x => min m x.t) a ≤ r.t := by
  induction l with
  | nil => intro a; simp
  | cons x xs ih =>
    intro a
    rcases ih (min a x.t) with ⟨h1, h2⟩
    refine ⟨le_trans h1 (min_le_left _ _), ?_⟩
    intro r hr
    rcases List.mem_cons.1 hr with rfl | hr
    · exact le_trans h1 (min_le_right _ _)
    · exact h2 r hr

lemma foldl_max_spec (l : List Rec) :
    ∀ a : ℤ, a ≤ l.foldl (fun m x => max m x.t) a ∧
      ∀ r ∈ l, r.t ≤ l.foldl (fun m x => max m x.t) a := by
  induction l with
  | nil => intro a; simp
  | cons x xs ih =>
    intro a
    rcases ih (max a x.t) with ⟨h1, h2⟩
    refine ⟨le_trans (le_max_left _ _) h1, ?_⟩
    intro r hr
    rcases List.mem_cons.1 hr with rfl | hr
    · exact le_trans (le_max_right _ _) h1
    · exact h2 r hr

lemma tminOf_le (recs : List Rec) (r : Rec) (hr : r ∈ recs) : tminOf recs ≤ r.t := by
  cases recs with
  | nil => cases hr
  | cons x xs =>
    rcases List.mem_cons.1 hr with rfl | hr
    · exact (foldl_min_spec xs r.t).1
    · exact (foldl_min_spec xs x.t).2 r hr

lemma le_tmaxOf (recs : List Rec) (r : Rec) (hr : r ∈ recs) : r.t ≤ tmaxOf recs := by
  cases recs with
  | nil => cases hr
  | cons x xs =>
    rcases List.mem_cons.1 hr with rfl | hr
    · exact (foldl_max_spec xs r.t).1
    · exact (foldl_max_spec xs x.t).2 r hr

lemma mem_intRange (b a c : ℤ) : b ∈ intRange a c ↔ a ≤ b ∧ b ≤ c := by
  simp only [intRange, List.mem_map, List.mem_range]
  constructor
  · rintro ⟨i, hi, rfl⟩
    omega
  · rintro ⟨h1, h2⟩
    exact ⟨(b - a).toNat, by omega, by omega⟩

lemma pairwise_lt_intRange (a c : ℤ) : (intRange a c).Pairwise (· < ·) := by
  unfold intRange
  refine List.Pairwise.map _ ?_ (List.pairwise_lt_range _)
  intro i j h
  omega

/-- The bucket labels of a filterMap whose emitted first component is
the key of the generating element inherit any pairwise relation of the
keys. -/
lemma pairwise_map_fst_filterMap {α : Type} (f : α → Option (ℤ × ℚ × ℕ)) (key : α → ℤ)
    (rel : ℤ → ℤ → Prop)
    (hf : ∀ x p, f x = some p → p.1 = key x) :
    ∀ l : List α, (l.map key).Pairwise rel → ((l.filterMap f).map Prod.fst).Pairwise rel := by
  intro l
  induction l with
  | nil => simp
  | cons x xs ih =>
    intro h
    rw [List.map_cons, List.pairwise_cons] at h
    rw [List.filterMap_cons]
    rcases hfx : f x with _ | p
    · exact ih h.2
    · rw [List.map_cons, List.pairwise_cons]
      refine ⟨?_, ih h.2⟩
      intro q hq
      rcases List.mem_map.1 hq with ⟨e, he, rfl⟩
      rcases List.mem_filterMap.1 he with ⟨y, hy, hye⟩
      rw [hf x p hfx, hf y e hye]
      exact h.1 (key y) (List.mem_map_of_mem key hy)

/-! ## Claim C6 -/

/-- Claim C6: for a monotone bucket assignment (each resample rule maps
timestamps monotonically onto bucket indexes) and a nonempty record
set, the aggregate holds an entry for exactly the buckets with at least
one record, every entry carries the mean transit hours and record count
of its own bucket, and the bucket labels are strictly ascending, so
each nonempty bucket appears exactly once and no null or zero row is
emitted. -/
theorem C6_bucketed_aggregation (bucketOf : ℤ → ℤ) (recs : List Rec)
    (hmono : ∀ a b : ℤ, a ≤ b → bucketOf a ≤ bucketOf b) (hne : recs ≠ []) :
    (∀ b : ℤ, (∃ m c, (b, m, c) ∈ resampleAgg bucketOf recs) ↔
      ∃ r ∈ recs, bucketOf r.t = b) ∧
    (∀ b m c, (b, m, c) ∈ resampleAgg bucketOf recs →
      m = meanTh (bucketRecs bucketOf b recs) ∧
      c = (bucketRecs bucketOf b recs).length ∧
      bucketRecs bucketOf b recs ≠ []) ∧
    ((resampleAgg bucketOf recs).map Prod.fst).Pairwise (· < ·) := by
  have hne2 : recs.isEmpty = false := List.isEmpty_eq_false.mpr hne
  have hdecomp : ∀ b m c, (b, m, c) ∈ resampleAgg bucketOf recs →
      b ∈ intRange (bucketOf (tminOf recs)) (bucketOf (tmaxOf recs)) ∧
      m = meanTh (bucketRecs bucketOf b recs) ∧
      c = (bucketRecs bucketOf b recs).length ∧
      bucketRecs bucketOf b recs ≠ [] := by
    intro b m c hmem
    simp only [resampleAgg, hne2, Bool.false_eq_true, if_false] at hmem
    rcases List.mem_filterMap.1 hmem with ⟨b0, hb0, heq⟩
    rcases hg : (bucketRecs bucketOf b0 recs).isEmpty with _ | _
    · rw [if_neg (by rw [hg]; exact Bool.false_ne_true)] at heq
      rcases heq with ⟨⟩
      exact ⟨hb0, rfl, rfl, fun hnil => by rw [hnil] at hg; cases hg⟩
    · rw [if_pos (by rw [hg])] at heq
      cases heq
  refine ⟨?_, ?_, ?_⟩
  · intro b
    constructor
    · rintro ⟨m, c, hmem⟩
      rcases hdecomp b m c hmem with ⟨_, _, _, hgne⟩
      rcases List.exists_mem_of_ne_nil _ hgne with ⟨r, hr⟩
      rcases List.mem_filter.1 hr with ⟨hrrecs, hrb⟩
      exact ⟨r, hrrecs, of_decide_eq_true hrb⟩
    · rintro ⟨r, hr, hb⟩
      have hrange : b ∈ intRange (bucketOf (tminOf recs)) (bucketOf (tmaxOf recs)) := by
        rw [mem_intRange]
        exact ⟨hb ▸ hmono _ _ (tminOf_le recs r hr), hb ▸ hmono _ _ (le_tmaxOf recs r hr)⟩
      have hrg : r ∈ bucketRecs bucketOf b recs :=
        List.mem_filter.2 ⟨hr, decide_eq_true hb⟩
      have hgne : (bucketRecs bucketOf b recs).isEmpty = false :=
        List.isEmpty_eq_false.mpr (List.ne_nil_of_mem hrg)
      refine ⟨meanTh (bucketRecs bucketOf b recs), (bucketRecs bucketOf b recs).length, ?_⟩
      simp only [resampleAgg, hne2, Bool.false_eq_true, if_false]
      exact List.mem_filterMap.2 ⟨b, hrange,
        by rw [if_neg (by rw [hgne]; exact Bool.false_ne_true)]⟩
  · intro b m c hmem
    exact (hdecomp b m c hmem).2
  · simp only [resampleAgg, hne2, Bool.false_eq_true, if_false]
    have hkey : ∀ (x : ℤ) (p : ℤ × ℚ × ℕ),
        (fun b => if (bucketRecs bucketOf b recs).isEmpty then none
          else some (b, meanTh (bucketRecs bucketOf b recs),
            (bucketRecs bucketOf b recs).length)) x = some p → p.1 = x := by
      intro x p hp
      dsimp only at hp
      split at hp
      · cases hp
      · rcases hp with ⟨⟩
        rfl
    have := pairwise_map_fst_filterMap _ id _ hkey
      (intRange (bucketOf (tminOf recs)) (bucketOf (tmaxOf recs)))
      (by rw [List.map_id]; exact pairwise_lt_intRange _ _)
    exact this

/-- Witness for claim C6: monthly bucketing of records on Jan 5, Jan 20
and Feb 2 yields exactly the January bucket (mean 15, count 2) and the
February bucket (mean 30, count 1), with no empty bucket. -/
theorem C6_bucketed_aggregation_witness :
    ((∀ a b : ℤ, a ≤ b → monthOf01 a ≤ monthOf01 b) ∧ recsJanFeb ≠ []) ∧
    ((∀ b : ℤ, (∃ m c, (b, m, c) ∈ resampleAgg monthOf01 recsJanFeb) ↔
        ∃ r ∈ recsJanFeb, monthOf01 r.t = b) ∧
      (∀ b m c, (b, m, c) ∈ resampleAgg monthOf01 recsJanFeb →
        m = meanTh (bucketRecs monthOf01 b recsJanFeb) ∧
        c = (bucketRecs monthOf01 b recsJanFeb).length ∧
        bucketRecs monthOf01 b recsJanFeb ≠ []) ∧
      ((resampleAgg monthOf01 recsJanFeb).map Prod.fst).Pairwise (· < ·)) ∧
    resampleAgg monthOf01 recsJanFeb = [(0, 15, 2), (1, 30, 1)] := by
  have hm : ∀ a b : ℤ, a ≤ b → monthOf01 a ≤ monthOf01 b := by
    intro a b h
    unfold monthOf01
    split_ifs <;> omega
  exact ⟨⟨hm, by decide⟩,
    C6_bucketed_aggregation monthOf01 recsJanFeb hm (by decide), by decide⟩

/-! ## Lemmas on rounding error -/

lemma ratFloor_eq (x : ℚ) : ratFloor x = ⌊x⌋ :=
  Rat.floor_def.symm

lemma roundHE_close (x : ℚ) : |(roundHE x : ℚ) - x| ≤ 1 / 2 := by
  have h1 : (⌊x⌋ : ℚ) ≤ x := Int.floor_le x
  have h2 : x < ⌊x⌋ + 1 := Int.lt_floor_add_one x
  simp only [roundHE, ratFloor_eq]
  split_ifs <;> (rw [abs_le]; constructor <;> push_cast <;> linarith)

lemma round2_close (x : ℚ) : |round2 x - x| ≤ 1 / 100 := by
  have h := roundHE_close (100 * x)
  have habs : |round2 x - x| = |(roundHE (100 * x) : ℚ) - 100 * x| / 100 := by
    unfold round2
    rw [show (roundHE (100 * x) : ℚ) / 100 - x = ((roundHE (100 * x) : ℚ) - 100 * x) / 100 by ring]
    rw [abs_div]
    norm_num
  rw [habs]
  linarith

/-! ## Claim C9 (corrected: the round trip only holds daily) -/

/-- Counterexample to claim C9 as stated: for records in January and
March and nothing in February, the dashboard monthly table has the two
nonempty buckets while the CSV written by export_csv has three rows,
including a February row with a null mean and count 0, so parsing the
export back cannot yield the same bucket labels and counts as the
dashboard aggregate (the label formats differ as well: a formatted
month start against a month-end timestamp). -/
theorem C9_round_trip_counterexample :
    (dashboard_monthly monthOf3 recsJanMar).map Prod.fst = [0, 2] ∧
    (export_monthly monthOf3 recsJanMar).map Prod.fst = [0, 1, 2] ∧
    (1, (none : Option ℚ), 0) ∈ export_monthly monthOf3 recsJanMar ∧
    (dashboard_monthly monthOf3 recsJanMar).length ≠ (export_monthly monthOf3 recsJanMar).length := by
  refine ⟨by decide, by decide, by decide, by decide⟩

/-- Claim C9 as amended: for the daily (last30days) granularity the
export and the dashboard run the same groupby aggregation, so the
exported table row-for-row matches the dashboard table on date and
count, and the means agree to within 0.01 (the dashboard rounds to two
decimals, the export writes the unrounded mean). For the other
granularities the export resamples with different anchors (W against
W-MON, 2W against 2W-SUN, ME against MS) and keeps the empty buckets
the dashboard drops, so labels and bucket sets can differ. -/
theorem C9_round_trip_daily (recs : List Rec) :
    List.Forall₂ (fun a b : ℤ × ℚ × ℕ =>
      a.1 = b.1 ∧ a.2.2 = b.2.2 ∧ |a.2.1 - b.2.1| ≤ 1 / 100)
      (dashboard_daily recs) (export_daily recs) := by
  unfold dashboard_daily export_daily
  induction groupbyDaily recs with
  | nil => exact List.Forall₂.nil
  | cons e es ih =>
    rw [List.map_cons]
    exact List.Forall₂.cons ⟨rfl, rfl, round2_close e.2.1⟩ ih

/-! ## Lemmas on the best-window reduction -/

lemma pyMinBy_eq_none {α : Type} (f : α → ℚ) :
    ∀ l : List α, pyMinBy f l = none ↔ l = [] := by
  intro l
  cases l with
  | nil => simp [pyMinBy]
  | cons x xs =>
    rcases h : pyMinBy f xs with _ | m
    · simp [pyMinBy, h]
    · simp only [pyMinBy, h]
      split <;> simp

/-- Python min by key returns the first element attaining the minimal
key: the list splits around the result, everything before it has a
strictly larger key, and nothing anywhere has a smaller key. -/
lemma pyMinBy_spec {α : Type} (f : α → ℚ) :
    ∀ (l : List α) (b : α), pyMinBy f l = some b →
      ∃ l1 l2, l = l1 ++ b :: l2 ∧ (∀ c ∈ l1, f b < f c) ∧ ∀ c ∈ l, f b ≤ f c := by
  intro l
  induction l with
  | nil => intro b h; cases h
  | cons x xs ih =>
    intro b h
    simp only [pyMinBy] at h
    rcases hxs : pyMinBy f xs with _ | m <;> rw [hxs] at h
    · have hnil : xs = [] := (pyMinBy_eq_none f xs).1 hxs
      obtain rfl := Option.some.inj h
      subst hnil
      exact ⟨[], [], rfl, by simp, by simp⟩
    · dsimp only at h
      rcases ih m hxs with ⟨l1, l2, hdec, hlt, hall⟩
      by_cases hle : f x ≤ f m
      · rw [if_pos hle] at h
        obtain rfl := Option.some.inj h
        refine ⟨[], xs, rfl, by simp, ?_⟩
        intro c hc
        rcases List.mem_cons.1 hc with rfl | hc
        · exact le_refl _
        · exact le_trans hle (hall c hc)
      · rw [if_neg hle] at h
        push_neg at hle
        rename' hle => hgt
        obtain rfl := Option.some.inj h
        rw [hdec]
        refine ⟨x :: l1, l2, rfl, ?_, ?_⟩
        · intro c hc
          rcases List.mem_cons.1 hc with rfl | hc
          · exact hgt
          · exact hlt c hc
        · intro c hc
          rcases List.mem_cons.1 hc with rfl | hc
          · exact le_of_lt hgt
          · exact hall c (hdec ▸ hc)

lemma find?_decomp {α : Type} (p : α → Bool) :
    ∀ (l : List α) (b : α), l.find? p = some b →
      p b = true ∧ ∃ l1 l2, l = l1 ++ b :: l2 ∧ ∀ c ∈ l1, p c = false := by
  intro l
  induction l with
  | nil => intro b h; cases h
  | cons x xs ih =>
    intro b h
    cases hpx : p x with
    | true =>
      rw [List.find?_cons_of_pos _ hpx] at h
      obtain rfl := Option.some.inj h
      exact ⟨hpx, [], xs, rfl, by simp⟩
    | false =>
      rw [List.find?_cons_of_neg _ (by simp [hpx])] at h
      rcases ih b h with ⟨hp, l1, l2, hdec, hfalse⟩
      refine ⟨hp, x :: l1, l2, by simp [hdec], ?_⟩
      intro c hc
      rcases List.mem_cons.1 hc with rfl | hc
      · exact hpx
      · exact hfalse c hc

lemma foldl_minAvg_le (xs : List (ℤ × ℚ × ℕ)) :
    ∀ a : ℚ, xs.foldl (fun a b => min a b.2.1) a ≤ a ∧
      ∀ b ∈ xs, xs.foldl (fun a b => min a b.2.1) a ≤ b.2.1 := by
  induction xs with
  | nil => intro a; simp
  | cons x xs ih =>
    intro a
    rcases ih (min a x.2.1) with ⟨h1, h2⟩
    refine ⟨le_trans h1 (min_le_left _ _), ?_⟩
    intro b hb
    rcases List.mem_cons.1 hb with rfl | hb
    · exact le_trans h1 (min_le_right _ _)
    · exact h2 b hb

lemma foldl_minAvg_mem (xs : List (ℤ × ℚ × ℕ)) :
    ∀ a : ℚ, xs.foldl (fun a b => min a b.2.1) a = a ∨
      ∃ b ∈ xs, xs.foldl (fun a b => min a b.2.1) a = b.2.1 := by
  induction xs with
  | nil => intro a; left; rfl
  | cons x xs ih =>
    intro a
    rw [List.foldl_cons]
    rcases ih (min a x.2.1) with h | ⟨b, hb, heq⟩
    · rcases min_cases a x.2.1 with ⟨hmin, _⟩ | ⟨hmin, _⟩
      · left
        rw [h, hmin]
      · right
        exact ⟨x, List.mem_cons_self x xs, by rw [h, hmin]⟩
    · right
      exact ⟨b, List.mem_cons_of_mem x hb, heq⟩

lemma minAvg_le (l : List (ℤ × ℚ × ℕ)) : ∀ b ∈ l, minAvg l ≤ b.2.1 := by
  cases l with
  | nil => intro b hb; cases hb
  | cons x xs =>
    intro b hb
    rcases List.mem_cons.1 hb with rfl | hb
    · exact (foldl_minAvg_le xs b.2.1).1
    · exact (foldl_minAvg_le xs x.2.1).2 b hb

lemma minAvg_mem (l : List (ℤ × ℚ × ℕ)) (h : l ≠ []) : ∃ b ∈ l, b.2.1 = minAvg l := by
  cases l with
  | nil => cases h rfl
  | cons x xs =>
    rcases foldl_minAvg_mem xs x.2.1 with he | ⟨b, hb, he⟩
    · exact ⟨x, List.mem_cons_self x xs, he.symm⟩
    · exact ⟨b, List.mem_cons_of_mem x hb, he.symm⟩

/-- A pairwise relation on the bucket keys relates the key at a split
point to every key after it. -/
lemma pairwise_decomp {rel : ℤ → ℤ → Prop} (l1 l2 : List (ℤ × ℚ × ℕ)) (b : ℤ × ℚ × ℕ)
    (h : ((l1 ++ b :: l2).map Prod.fst).Pairwise rel) :
    ∀ c ∈ l2, rel b.1 c.1 := by
  rw [List.map_append, List.pairwise_append] at h
  rcases h with ⟨_, h2, _⟩
  rw [List.map_cons, List.pairwise_cons] at h2
  intro c hc
  exact h2.1 c.1 (List.mem_map_of_mem Prod.fst hc)

/-- The weekly buckets are generated most recent week first, so their
week-end keys are strictly decreasing. -/
lemma weeklyBuckets_keys_desc (y : ℤ) (recs : List Rec) :
    ((weeklyBuckets y recs).map Prod.fst).Pairwise (fun a b => b < a) := by
  unfold weeklyBuckets
  refine pairwise_map_fst_filterMap _ (fun i : ℕ => y - 7 * (i : ℤ)) _ ?_ _ ?_
  · intro x p hp
    split at hp
    · cases hp
    · rcases hp with ⟨⟩
      rfl
  · refine List.Pairwise.map _ ?_ (List.pairwise_lt_range 12)
    intro i j hij
    omega

/-! ## Claim C7 (corrected: the weekly reduction breaks ties latest) -/

/-- Counterexample to claim C7 as stated: with the anchor day 100, the
record set recsTie yields two weekly buckets that tie at the minimal
mean 5, the week ending day 100 with count 2 and the earlier week
ending day 93 with count 1. The claim requires the earliest tied bucket
(count 1), but the code iterates weeks most recent first and the Python
min keeps the first minimum, so it reports the latest tied bucket with
count 2. -/
theorem C7_best_window_counterexample :
    weeklyBuckets 100 recsTie = [(100, 5, 2), (93, 5, 1)] ∧
    best_weekly 100 recsTie = some (5, 2) ∧
    best_weekly 100 recsTie ≠ some (5, 1) := by
  refine ⟨by decide, by decide, by decide⟩

/-- Claim C7 as amended: the best-monthly (and best-fortnightly)
reduction selects a bucket of minimal mean and reports the count of the
earliest bucket attaining it, provided the minimal mean is nonzero (the
source guards the count with float truthiness, so a zero minimal mean
reports count 0); the best-weekly reduction selects the bucket of
minimal mean but reports the LATEST bucket attaining it, because the
weeks are generated most recent first and the Python min keeps the
first minimum. -/
theorem C7_best_window_reduction :
    (∀ (l : List (ℤ × ℚ × ℕ)) (m : ℚ) (c : ℕ),
      (l.map Prod.fst).Pairwise (· < ·) → best_monthly l = (some m, c) → m ≠ 0 →
      ∃ b ∈ l, b.2.1 = m ∧ b.2.2 = c ∧ (∀ b2 ∈ l, m ≤ b2.2.1) ∧
        ∀ b2 ∈ l, b2.2.1 = m → b.1 ≤ b2.1) ∧
    (∀ (y : ℤ) (recs : List Rec) (m : ℚ) (c : ℕ),
      best_weekly y recs = some (m, c) →
      ∃ b ∈ weeklyBuckets y recs, b.2.1 = m ∧ b.2.2 = c ∧
        (∀ b2 ∈ weeklyBuckets y recs, m ≤ b2.2.1) ∧
        ∀ b2 ∈ weeklyBuckets y recs, b2.2.1 = m → b2.1 ≤ b.1) := by
  constructor
  · intro l m c hsorted hbm hm0
    rcases l with _ | ⟨x, xs⟩
    · exfalso
      have h1 := congrArg Prod.fst hbm
      simp [best_monthly] at h1
    have h1 := congrArg Prod.fst hbm
    have h2 := congrArg Prod.snd hbm
    simp only [best_monthly] at h1 h2
    obtain rfl := Option.some.inj h1
    rw [if_neg hm0] at h2
    have hex : ∃ b ∈ x :: xs, b.2.1 = minAvg (x :: xs) := minAvg_mem _ (by simp)
    rcases hfind : (x :: xs).find? (fun b => decide (b.2.1 = minAvg (x :: xs))) with _ | b
    · exfalso
      rcases hex with ⟨b, hb, hbeq⟩
      have := List.find?_eq_none.1 hfind b hb
      simp [hbeq] at this
    rw [hfind] at h2
    rcases find?_decomp _ _ _ hfind with ⟨hpb, l1, l2, hdec, hfalse⟩
    refine ⟨b, ?_, of_decide_eq_true hpb, h2, minAvg_le _, ?_⟩
    · rw [hdec]
      exact List.mem_append_right _ (List.mem_cons_self _ _)
    · intro b2 hb2 hb2eq
      rw [hdec] at hb2
      rcases List.mem_append.1 hb2 with hL | hR
      · exfalso
        have := hfalse b2 hL
        simp [hb2eq] at this
      · rcases List.mem_cons.1 hR with rfl | hR
        · exact le_refl _
        · exact le_of_lt (pairwise_decomp l1 l2 b (hdec ▸ hsorted) b2 hR)
  · intro y recs m c h
    unfold best_weekly at h
    split at h
    · exact Option.noConfusion h
    rcases Option.map_eq_some'.1 h with ⟨b, hpy, hbeq⟩
    have hb1 : b.2.1 = m := congrArg Prod.fst hbeq
    have hb2 : b.2.2 = c := congrArg Prod.snd hbeq
    rcases pyMinBy_spec _ _ _ hpy with ⟨l1, l2, hdec, hlt, hall⟩
    refine ⟨b, ?_, hb1, hb2, ?_, ?_⟩
    · rw [hdec]
      exact List.mem_append_right _ (List.mem_cons_self _ _)
    · intro b2 hb2m
      exact hb1 ▸ hall b2 hb2m
    · intro b2 hb2m heq
      rw [hdec] at hb2m
      rcases List.mem_append.1 hb2m with hL | hR
      · exfalso
        have hcontra := hlt b2 hL
        rw [heq, ← hb1] at hcontra
        exact lt_irrefl _ hcontra
      · rcases List.mem_cons.1 hR with rfl | hR
        · exact le_refl _
        · exact le_of_lt (pairwise_decomp l1 l2 b (hdec ▸ weeklyBuckets_keys_desc y recs) b2 hR)

/-- Witness for the amended claim C7 on a concrete bucket list and a
concrete weekly record set. -/
theorem C7_best_window_reduction_witness :
    ((bucketsBest.map Prod.fst).Pairwise (· < ·) ∧
      best_monthly bucketsBest = (some 3, 2) ∧ (3 : ℚ) ≠ 0 ∧
      best_weekly 100 recsBest = some (3, 1)) ∧
    (∃ b ∈ bucketsBest, b.2.1 = 3 ∧ b.2.2 = 2 ∧ (∀ b2 ∈ bucketsBest, 3 ≤ b2.2.1) ∧
      ∀ b2 ∈ bucketsBest, b2.2.1 = 3 → b.1 ≤ b2.1) ∧
    (∃ b ∈ weeklyBuckets 100 recsBest, b.2.1 = 3 ∧ b.2.2 = 1 ∧
      (∀ b2 ∈ weeklyBuckets 100 recsBest, 3 ≤ b2.2.1) ∧
      ∀ b2 ∈ weeklyBuckets 100 recsBest, b2.2.1 = 3 → b2.1 ≤ b.1) :=
  ⟨⟨by decide, by decide, by decide, by decide⟩,
    C7_best_window_reduction.1 bucketsBest 3 2 (by decide) (by decide) (by decide),
    C7_best_window_reduction.2 100 recsBest 3 1 (by decide)⟩

end RR
